import Mathlib

/-!
A shallow embedding of the reactive state-management core of the
`js-modules` repository (`ReactiveContext`): the deeply reactive proxy
(`#createReactive` with its get/set traps and array-mutator interception),
the identity proxy cache, the event bus (`#emit`, `on`, `off`, `once`)
and the field registry (`createReactiveFields` and the per-field
accessor pair).  JavaScript values are modelled by an explicit inductive
type with heap references for objects and arrays; the observable
behaviour (event emissions, console warnings, console errors, listener
invocations, thrown `TypeError`s) is returned as explicit effect lists.
-/

namespace RC

/-- JavaScript values, shallowly embedded.  Objects and arrays live on an
explicit heap and are denoted by references, mirroring JavaScript
reference semantics.  Numbers are modelled as integers (the repository
never relies on non-integer arithmetic in the reactive core). -/
inductive JSVal where
  | vUndef : JSVal
  | vNull : JSVal
  | vInt : Int → JSVal
  | vStr : String → JSVal
  | vBool : Bool → JSVal
  | vRef : Nat → JSVal
deriving DecidableEq, Repr

/-- `value !== null && typeof value === 'object'` — the guard used by the
get trap to decide recursive wrapping, and (together with the explicit
`undefined` exclusion, which is implied here) by the set trap to decide
the reassignment warning.  `typeof null` is `'object'` but `null` is
excluded explicitly in the source, and all primitives have a different
`typeof`, so the guard holds exactly for heap references. -/
def JSVal.isObjectLike : JSVal → Bool
  | .vRef _ => true
  | _ => false

/-- Property keys: plain strings or symbols.  A symbol is identified by a
numeric id; its description never matters to the embedded code. -/
inductive PKey where
  | str : String → PKey
  | sym : Nat → PKey
deriving DecidableEq, Repr

/-- JavaScript string interpolation of a property key, as performed by the
template literals building event names and warning messages.
Interpolating a symbol throws `TypeError: Cannot convert a Symbol value
to a string`; this is modelled by `none`. -/
def PKey.interp : PKey → Option String
  | .str s => some s
  | .sym _ => none

/-- First-match association lookup. -/
def aget {κ α : Type} [DecidableEq κ] : List (κ × α) → κ → Option α
  | [], _ => none
  | (k, a) :: rest, k' => if k = k' then some a else aget rest k'

/-- Association update: replace the first binding of the key, or append a
new binding (JavaScript preserves insertion order of string keys). -/
def aset {κ α : Type} [DecidableEq κ] : List (κ × α) → κ → α → List (κ × α)
  | [], k, a => [(k, a)]
  | (k0, a0) :: rest, k, a =>
      if k0 = k then (k0, a) :: rest else (k0, a0) :: aset rest k a

/-- A raw (unproxied) JavaScript object or array.  Arrays keep their
elements in `elems` (index properties plus `length`); `props` holds the
ordinary string/symbol-keyed own properties.  For non-arrays `elems` is
unused and empty. -/
structure RawObj where
  isArr : Bool
  elems : List JSVal
  props : List (PKey × JSVal)
deriving DecidableEq, Repr

/-- Whether a string is a canonical array index (the exact decimal
rendering of a natural number), as used by JavaScript array exotic
objects. -/
def canonIdx (s : String) : Option Nat :=
  match s.toNat? with
  | some n => if toString n = s then some n else none
  | none => none

/-- Raw property read `obj[prop]`: array element / `length` for canonical
reads on arrays, otherwise own-property lookup, `undefined` if absent. -/
def rawGet (o : RawObj) (k : PKey) : JSVal :=
  if o.isArr then
    match k with
    | .str s =>
        if s = "length" then .vInt o.elems.length
        else match canonIdx s with
          | some i => (o.elems.get? i).getD .vUndef
          | none => (aget o.props k).getD .vUndef
    | .sym _ => (aget o.props k).getD .vUndef
  else ((aget o.props k).getD .vUndef)

/-- Overwrite list element `i`, padding with `undefined` when writing one
past the end (JavaScript array extension for canonical index writes). -/
def listSetExt (l : List JSVal) (i : Nat) (v : JSVal) : List JSVal :=
  if i < l.length then l.set i v
  else l ++ List.replicate (i - l.length) .vUndef ++ [v]

/-- Raw property write `obj[prop] = v` (standard semantics: creates the
property if absent; canonical index writes on arrays update/extend the
element list; a write to `length` resizes). -/
def rawSet (o : RawObj) (k : PKey) (v : JSVal) : RawObj :=
  if o.isArr then
    match k with
    | .str s =>
        if s = "length" then
          match v with
          | .vInt n =>
              { o with elems :=
                  (o.elems.take n.toNat) ++
                    List.replicate (n.toNat - o.elems.length) .vUndef }
          | _ => o
        else
          match canonIdx s with
          | some i => { o with elems := listSetExt o.elems i v }
          | none => { o with props := aset o.props k v }
    | .sym _ => { o with props := aset o.props k v }
  else { o with props := aset o.props k v }

/-- The heap: allocated raw objects, addressed by position. -/
abbrev Heap := List RawObj

def heapGet (h : Heap) (r : Nat) : Option RawObj := List.get? h r

def heapSet (h : Heap) (r : Nat) (o : RawObj) : Heap := List.set h r o

/-- Values as they appear inside event payloads.  Nested traps put raw
values there; the root field setter's `old_value` is the stored field
value, which for objects is the proxy itself. -/
inductive EVal where
  | raw : JSVal → EVal
  | proxy : Nat → String → EVal
deriving DecidableEq, Repr

/-- The three event payload shapes produced by the source: change
`{prop, old_value, new_value, timestamp}`, read
`{prop, value, timestamp}`, array mutation
`{method, args, length, timestamp}`. -/
inductive Payload where
  | change : String → EVal → EVal → Nat → Payload
  | readPl : String → JSVal → Nat → Payload
  | arrayMutation : String → List JSVal → Nat → Nat → Payload
deriving DecidableEq, Repr

/-- Observable side effects of the traps and accessors, in program order:
`#emit` calls (event name and payload) and `console.warn` reassignment
diagnostics (`warn type prop` stands for the source's
`console.warn` of the message interpolating the value type and the
property name). -/
inductive Eff where
  | emit : String → Payload → Eff
  | warn : String → String → Eff
deriving DecidableEq, Repr

/-- `ARRAY_MUTATORS` — the nine array methods intercepted as bulk
mutations. -/
def ARRAY_MUTATORS : List String :=
  ["push", "pop", "shift", "unshift",
   "splice", "sort", "reverse", "fill", "copyWithin"]

/-- The per-instance proxy identity cache (`#proxy_cache`): each raw
reference maps to the namespace its unique proxy was created with. -/
abbrev Cache := List (Nat × String)

/-- The result of `#createReactive`: primitives pass through unchanged;
objects and arrays become reactive nodes, identified by their raw
reference and the namespace captured at proxy-creation time. -/
inductive RVal where
  | prim : JSVal → RVal
  | node : Nat → String → RVal
deriving DecidableEq, Repr

/-- `ReactiveContext.#createReactive(target, namespace)`: primitives are
returned unchanged; a cached proxy is returned when the raw target was
wrapped before (with its original namespace — the new namespace argument
is ignored on a cache hit); otherwise a fresh proxy is created, recorded
in the cache, and returned. -/
def createReactive (c : Cache) (target : JSVal) (ns : String) : RVal × Cache :=
  match target with
  | .vRef r =>
      match aget c r with
      | some ns0 => (.node r ns0, c)
      | none => (.node r ns, c ++ [(r, ns)])
  | v => (.prim v, c)

/-- `prop.startsWith('_')` for a one-character needle: whether the first
character of the key is an underscore (the convention marking a property
as non-observable). -/
def underscoreFirst (s : String) : Bool :=
  match s.data with
  | [] => false
  | ch :: _ => ch = '_'

/-- The value produced by the get trap: a raw value passed through, a
wrapped child node, or the bound array-mutator closure returned for the
nine intercepted method names on arrays. -/
inductive GetResult where
  | primV : JSVal → GetResult
  | nodeV : Nat → String → GetResult
  | mutatorFn : String → GetResult
deriving DecidableEq, Repr

/-- The get trap of `#createReactive`'s proxy, on the node for raw
reference `r` with namespace `ns`.  In source order: read the raw value;
if the target is an array and the key one of `ARRAY_MUTATORS`, return the
mutator closure; if the value is a non-null object, wrap it under
`ns ++ "." ++ prop` (interpolating a symbol key throws, modelled by
`.error`); otherwise, for a plain string key not starting with an
underscore, emit the specific and generic read events and return the raw
value; all other keys return the raw value silently. -/
def getTrap (h : Heap) (c : Cache) (r : Nat) (ns : String) (prop : PKey)
    (ts : Nat) : Except String (GetResult × Cache × List Eff) :=
  match heapGet h r with
  | none => .error "dangling reference"
  | some o =>
    let value := rawGet o prop
    if o.isArr && (match prop with
        | .str s => ARRAY_MUTATORS.contains s
        | .sym _ => false) then
      match prop with
      | .str s => .ok (.mutatorFn s, c, [])
      | .sym _ => .error "unreachable"
    else if value.isObjectLike then
      match prop.interp with
      | none => .error "TypeError: Cannot convert a Symbol value to a string"
      | some s =>
          match createReactive c value (ns ++ "." ++ s) with
          | (.node r' ns', c') => .ok (.nodeV r' ns', c', [])
          | (.prim v, c') => .ok (.primV v, c', [])
    else
      match prop with
      | .str s =>
          if ¬ underscoreFirst s then
            .ok (.primV value, c,
              [.emit (ns ++ ":" ++ s ++ ":read") (.readPl s value ts),
               .emit (ns ++ ":read") (.readPl s value ts)])
          else .ok (.primV value, c, [])
      | .sym _ => .ok (.primV value, c, [])

/-- `ToIntegerOrInfinity`-style coercion of an argument to an integer, as
used by the index-taking array methods (`NaN` coerces to `0`). -/
def jsToIntZ : JSVal → Int
  | .vInt n => n
  | .vBool b => if b then 1 else 0
  | .vStr s => (s.toInt?).getD 0
  | _ => 0

/-- Relative-index normalization shared by `splice`, `fill` and
`copyWithin`: negative indices count from the end, and the result is
clamped into `[0, len]`. -/
def normIdx (rel : Int) (len : Nat) : Nat :=
  if rel < 0 then ((len : Int) + rel).toNat else min rel.toNat len

/-- JavaScript default `ToString` of a value, used by the default `sort`
comparator. -/
def jsToString : JSVal → String
  | .vUndef => "undefined"
  | .vNull => "null"
  | .vInt n => toString n
  | .vStr s => s
  | .vBool b => if b then "true" else "false"
  | .vRef _ => "[object Object]"

/-- The value returned by a mutator call: the new length (`push`,
`unshift`), a removed element (`pop`, `shift`), the removed slice
(`splice`), or the array itself (`sort`, `reverse`, `fill`,
`copyWithin`). -/
inductive MutRet where
  | num : Nat → MutRet
  | val : JSVal → MutRet
  | arrList : List JSVal → MutRet
  | self : MutRet
deriving DecidableEq, Repr

/-- `end` arguments of `fill`/`copyWithin`: absent or `undefined` means
the array length. -/
def endArg (a : Option JSVal) (len : Nat) : Nat :=
  match a with
  | none => len
  | some .vUndef => len
  | some v => normIdx (jsToIntZ v) len

/-- The element-list effect and return value of each of the nine
intercepted `Array.prototype` mutators (the native methods the source
dispatches to via `Array.prototype[prop].apply(obj, args)`). -/
def applyMutator (method : String) (args : List JSVal) (es : List JSVal) :
    List JSVal × MutRet :=
  if method = "push" then
    (es ++ args, .num (es.length + args.length))
  else if method = "pop" then
    (es.dropLast, .val ((es.getLast?).getD .vUndef))
  else if method = "shift" then
    (es.tail, .val ((es.head?).getD .vUndef))
  else if method = "unshift" then
    (args ++ es, .num (args.length + es.length))
  else if method = "splice" then
    match args with
    | [] => (es, .arrList [])
    | start :: rest =>
        let len := es.length
        let a := normIdx (jsToIntZ start) len
        let dc := match rest with
          | [] => len - a
          | d :: _ => min (max (jsToIntZ d) 0).toNat (len - a)
        let items := rest.drop 1
        ((es.take a) ++ items ++ (es.drop (a + dc)),
         .arrList ((es.drop a).take dc))
  else if method = "sort" then
    ((es.filter (fun v => v ≠ .vUndef)).mergeSort
        (fun x y => jsToString x ≤ jsToString y) ++
      es.filter (fun v => v = .vUndef), .self)
  else if method = "reverse" then
    (es.reverse, .self)
  else if method = "fill" then
    let v := (args.get? 0).getD .vUndef
    let len := es.length
    let a := normIdx (jsToIntZ ((args.get? 1).getD .vUndef)) len
    let b := endArg (args.get? 2) len
    ((List.range len).map
        (fun i => if a ≤ i ∧ i < b then v else (es.get? i).getD .vUndef),
     .self)
  else if method = "copyWithin" then
    let len := es.length
    let t := normIdx (jsToIntZ ((args.get? 0).getD .vUndef)) len
    let a := normIdx (jsToIntZ ((args.get? 1).getD .vUndef)) len
    let b := endArg (args.get? 2) len
    let count := min (b - a) (len - t)
    ((List.range len).map (fun i =>
        if t ≤ i ∧ i < t + count then (es.get? (a + (i - t))).getD .vUndef
        else (es.get? i).getD .vUndef),
     .self)
  else (es, .val .vUndef)

/-- Invoking the mutator closure returned by the get trap: perform the
underlying mutation on the raw array, then emit exactly one
`<namespace>:change` event whose payload carries the method name, the
arguments, and the array's post-mutation length. -/
def callMutator (h : Heap) (r : Nat) (ns : String) (method : String)
    (args : List JSVal) (ts : Nat) : Heap × MutRet × List Eff :=
  match heapGet h r with
  | none => (h, .val .vUndef, [])
  | some o =>
    let m := applyMutator method args o.elems
    (heapSet h r { o with elems := m.1 }, m.2,
     [.emit (ns ++ ":change") (.arrayMutation method args m.1.length ts)])

/-- The outcome of the set trap: the heap after the step, the effects
performed before any throw, and the `TypeError` message when string
interpolation of a symbol key threw. -/
structure SetOut where
  heap : Heap
  effs : List Eff
  thrown : Option String
deriving DecidableEq, Repr

/-- `Array.isArray(old_value)`, resolving the type name used in the
reassignment warning. -/
def typeNameOf (h : Heap) (v : JSVal) : String :=
  match v with
  | .vRef r => if (match heapGet h r with
      | some o => o.isArr
      | none => false) then "array" else "object"
  | _ => "object"

/-- The set trap of `#createReactive`'s proxy, in source order: capture
`old_value`; when it is a non-null, non-undefined object, build and log
the reassignment warning (interpolating a symbol key throws here, before
the assignment); perform the raw assignment; emit
`<ns>:<prop>:change` then `<ns>:change` with the change payload
(interpolating a symbol key throws here, after the assignment, so the
raw write survives but no event fires); report success. -/
def setTrap (h : Heap) (r : Nat) (ns : String) (prop : PKey) (nv : JSVal)
    (ts : Nat) : SetOut :=
  match heapGet h r with
  | none => { heap := h, effs := [], thrown := some "dangling reference" }
  | some o =>
    let old := rawGet o prop
    if old.isObjectLike then
      match prop.interp with
      | none =>
          { heap := h, effs := [],
            thrown := some "TypeError: Cannot convert a Symbol value to a string" }
      | some s =>
          let h' := heapSet h r (rawSet o prop nv)
          let pl := Payload.change s (.raw old) (.raw nv) ts
          { heap := h',
            effs := [.warn (typeNameOf h old) s,
                     .emit (ns ++ ":" ++ s ++ ":change") pl,
                     .emit (ns ++ ":change") pl],
            thrown := none }
    else
      let h' := heapSet h r (rawSet o prop nv)
      match prop.interp with
      | none =>
          { heap := h', effs := [],
            thrown := some "TypeError: Cannot convert a Symbol value to a string" }
      | some s =>
          let pl := Payload.change s (.raw old) (.raw nv) ts
          { heap := h',
            effs := [.emit (ns ++ ":" ++ s ++ ":change") pl,
                     .emit (ns ++ ":change") pl],
            thrown := none }

/-! ## Event bus: listener table, `on` / `off` / `once`, `#emit` -/

/-- The listener table `#listeners`: event name to the array of
registered callbacks (callbacks are identified by numeric ids; function
identity in the source is reference identity). -/
abbrev LTable := List (String × List Nat)

/-- `ReactiveContext.on(event, callback)`: create the event's array if
missing, then push the callback.  The returned unsubscribe closure is
`off event cb`. -/
def onEv (tbl : LTable) (event : String) (cb : Nat) : LTable :=
  match aget tbl event with
  | none => tbl ++ [(event, [cb])]
  | some l => aset tbl event (l ++ [cb])

/-- Remove the first occurrence of an element from a list
(`indexOf` + `splice(index, 1)`). -/
def removeFirst : List Nat → Nat → List Nat
  | [], _ => []
  | x :: rest, cb => if x = cb then rest else x :: removeFirst rest cb

/-- `ReactiveContext.off(event, callback)`: no-op when the event has no
entry; otherwise splice out the first matching registration, if any. -/
def off (tbl : LTable) (event : String) (cb : Nat) : LTable :=
  match aget tbl event with
  | none => tbl
  | some l => aset tbl event (removeFirst l cb)

/-- A single listener-table operation performed by a callback body while
it runs (a call to `on` or `off` on the host). -/
inductive LOp where
  | onOp : String → Nat → LOp
  | offOp : String → Nat → LOp
deriving DecidableEq, Repr

def applyLOp (tbl : LTable) : LOp → LTable
  | .onOp e cb => onEv tbl e cb
  | .offOp e cb => off tbl e cb

def applyLOps (tbl : LTable) (ops : List LOp) : LTable :=
  ops.foldl applyLOp tbl

/-- Callback behaviour.  A `plain` callback performs its listener-table
operations in order and then returns or throws.  An `onceWrapper` is the
closure built by `ReactiveContext.once(event, callback)`: it invokes the
inner callback (whose behaviour is inlined) and, only if that returns
normally, unregisters itself via `off event selfId` — the `off` call
follows the callback call in the source. -/
inductive CbBody where
  | plain : List LOp → Bool → CbBody
  | onceWrapper : (event : String) → (innerId : Nat) → (innerMuts : List LOp) →
      (innerThrows : Bool) → (selfId : Nat) → CbBody
deriving DecidableEq, Repr

/-- The callback registry: which function each id denotes. -/
abbrev Registry := List (Nat × CbBody)

/-- Observable effects of dispatch: a callback invocation with its
`(payload, hostInstance)` arguments, or the `console.error` report
written by `#emit`'s per-listener catch. -/
inductive DEff where
  | invoked : Nat → Payload → DEff
  | errorLogged : String → DEff
deriving DecidableEq, Repr

/-- Run one callback: returns the listener table after its body, whether
it threw, and the ids of further callbacks it invoked itself (the inner
callback of a `once` wrapper).  An unregistered id is a no-op guard. -/
def runCb (reg : Registry) (tbl : LTable) (id : Nat) :
    LTable × Bool × List Nat :=
  match aget reg id with
  | none => (tbl, false, [])
  | some (.plain muts thr) => (applyLOps tbl muts, thr, [])
  | some (.onceWrapper ev innerId innerMuts innerThrows selfId) =>
      let tbl1 := applyLOps tbl innerMuts
      if innerThrows then (tbl1, true, [innerId])
      else (off tbl1 ev selfId, false, [innerId])

/-- The dispatch loop of `ReactiveContext.#emit`:
`for (const callback of this.#listeners[event]) try { callback(data, this) } catch { console.error }`.
The `for…of` iterator walks the **live** array by increasing index —
`off` splices and `on` pushes in place, so mutations made by a running
listener are visible to the rest of the iteration.  `fuel` bounds the
number of loop steps (listeners that keep registering new listeners for
the same event make the source loop diverge in exactly the same way). -/
def emitSteps (reg : Registry) (event : String) (pl : Payload)
    (fuel : Nat) (tbl : LTable) (i : Nat) : LTable × List DEff :=
  match fuel with
  | 0 => (tbl, [])
  | fuel + 1 =>
    let arr := (aget tbl event).getD []
    match arr.get? i with
    | none => (tbl, [])
    | some cbId =>
        let step := runCb reg tbl cbId
        let effs := DEff.invoked cbId pl ::
          (step.2.2.map (fun j => DEff.invoked j pl) ++
            (if step.2.1 then [DEff.errorLogged event] else []))
        let rest := emitSteps reg event pl fuel step.1 (i + 1)
        (rest.1, effs ++ rest.2)

/-- `ReactiveContext.#emit(event, data)`: return immediately when the
event has no listener entry; otherwise run the guarded dispatch loop
from index 0.  The function is total: a listener exception is caught and
logged, never propagated to the triggering read or write. -/
def emit (reg : Registry) (tbl : LTable) (event : String) (pl : Payload)
    (fuel : Nat) : LTable × List DEff :=
  match aget tbl event with
  | none => (tbl, [])
  | some _ => emitSteps reg event pl fuel tbl 0

/-- `ReactiveContext.once(event, callback)`: register a fresh wrapper
closure around the inner callback.  The returned unsubscribe closure is
`off event wrapperId`. -/
def once (reg : Registry) (tbl : LTable) (event : String) (innerId : Nat)
    (innerMuts : List LOp) (innerThrows : Bool) (wrapperId : Nat) :
    Registry × LTable :=
  (reg ++ [(wrapperId, .onceWrapper event innerId innerMuts innerThrows wrapperId)],
   onEv tbl event wrapperId)

/-- Dispatch the emissions of a trap's effect list through the event bus,
in order, collecting the listener invocations (warnings are not bus
events). -/
def dispatchEffs (reg : Registry) (tbl : LTable) (effs : List Eff)
    (fuel : Nat) : LTable × List DEff :=
  match effs with
  | [] => (tbl, [])
  | .warn _ _ :: rest => dispatchEffs reg tbl rest fuel
  | .emit e p :: rest =>
      let step := emit reg tbl e p fuel
      let next := dispatchEffs reg step.1 rest fuel
      (next.1, step.2 ++ next.2)

/-! ## Field registry: `createReactiveFields` and the field accessors -/

/-- The state of a host instance: the shared heap, the proxy identity
cache, the private per-field storage `#fields`, and the instance's
string-keyed own properties (the accessor pairs installed by
`Object.defineProperty`). -/
structure Host where
  heap : Heap
  cache : Cache
  fields : List (String × RVal)
  ownProps : List String
deriving DecidableEq, Repr

/-- `ReactiveContext.createReactiveFields(definitions)`: process the
entries in order; throw `TypeError` as soon as a field name is already
an own property of the host (fields installed by earlier entries stay
installed — there is no rollback — and later entries are never reached);
otherwise store the wrapped initial value in `#fields` and install the
accessor pair, which makes the name an own property. -/
def createReactiveFields (host : Host) :
    List (String × JSVal) → Host × Option String
  | [] => (host, none)
  | (name, init) :: rest =>
      if host.ownProps.contains name then
        (host, some ("TypeError: Field " ++ name ++ " already exists"))
      else
        let w := createReactive host.cache init name
        createReactiveFields
          { host with
              cache := w.2,
              fields := aset host.fields name w.1,
              ownProps := host.ownProps ++ [name] } rest

/-- The read accessor installed for a declared field: returns the stored
`#fields` value (already wrapped when non-primitive); no event is
emitted for top-level field reads. -/
def fieldGet (host : Host) (name : String) : Option RVal :=
  aget host.fields name

/-- The stored field value as it appears in the root setter's payload
(`old_value` is `this.#fields[field_name]`, i.e. the proxy for
objects). -/
def RVal.toEVal : RVal → EVal
  | .prim v => .raw v
  | .node r ns => .proxy r ns

/-- The write accessor installed for a declared field: capture the stored
old value; when it is an object/array (a proxy — `typeof` is
`'object'`), log the root reassignment warning; wrap the new value
eagerly under the field's name and store it; emit a single
`<field>:change` event. -/
def fieldSet (host : Host) (name : String) (nv : JSVal) (ts : Nat) :
    Host × List Eff :=
  let old := (aget host.fields name).getD (.prim .vUndef)
  let warnEffs : List Eff :=
    match old with
    | .node r _ => [.warn (typeNameOf host.heap (.vRef r)) name]
    | .prim _ => []
  let w := createReactive host.cache nv name
  ({ host with cache := w.2, fields := aset host.fields name w.1 },
   warnEffs ++
     [.emit (name ++ ":change") (.change name old.toEVal (.raw nv) ts)])

/-! ## Helper lemmas on association lists -/

/-- The `#emit` calls of an effect list, in order (warnings are console
side effects, not bus events). -/
def emittedEvents : List Eff → List (String × Payload)
  | [] => []
  | .emit e p :: rest => (e, p) :: emittedEvents rest
  | .warn _ _ :: rest => emittedEvents rest

theorem aget_append_none {κ α : Type} [DecidableEq κ]
    {l : List (κ × α)} {k : κ} (h : aget l k = none) (v : α) :
    aget (l ++ [(k, v)]) k = some v := by
  induction l with
  | nil => simp [aget]
  | cons p rest ih =>
      rw [aget] at h
      by_cases hk : p.1 = k
      · simp [hk] at h
      · rw [List.cons_append, aget]
        simp only [hk, if_false] at h ⊢
        exact ih h

theorem aget_none_not_mem {κ α : Type} [DecidableEq κ]
    {l : List (κ × α)} {k : κ} (h : aget l k = none) :
    k ∉ l.map Prod.fst := by
  induction l with
  | nil => simp
  | cons p rest ih =>
      rw [aget] at h
      by_cases hk : p.1 = k
      · simp [hk] at h
      · intro hmem
        rcases List.mem_cons.mp hmem with h1 | h1
        · exact hk h1.symm
        · simp only [hk, if_false] at h
          exact ih h h1

theorem aget_aset_self {κ α : Type} [DecidableEq κ]
    (l : List (κ × α)) (k : κ) (v : α) :
    aget (aset l k v) k = some v := by
  induction l with
  | nil => simp [aset, aget]
  | cons p rest ih =>
      rw [aset]
      by_cases hk : p.1 = k
      · simp [aget, hk]
      · rw [if_neg hk, aget, if_neg hk]
        exact ih

theorem aset_append_none {κ α : Type} [DecidableEq κ]
    {l : List (κ × α)} {k : κ} (h : aget l k = none) (v v' : α) :
    aset (l ++ [(k, v)]) k v' = l ++ [(k, v')] := by
  induction l with
  | nil => simp [aset]
  | cons p rest ih =>
      rw [aget] at h
      by_cases hk : p.1 = k
      · simp [hk] at h
      · rw [List.cons_append, aset, if_neg hk, List.cons_append]
        simp only [List.cons.injEq, true_and]
        exact ih (by simpa [hk] using h)

/-! ## C1: writes emit the specific then the generic change event -/

/-- The raw store for the spec scenario `a = {b: {c: 1}}`: reference 0 is
the root object, reference 1 its nested `b` object. -/
def nestedHeapA : Heap :=
  [⟨false, [], [(.str "b", .vRef 1)]⟩, ⟨false, [], [(.str "c", .vInt 1)]⟩]

/-- The cache after the root field `a` was wrapped. -/
def nestedCacheA : Cache := [(0, "a")]

/-- C1.  Every string-keyed assignment through a reactive node performs
the assignment on the raw target, throws nothing, and emits exactly two
events, in order `<ns>:<prop>:change` then `<ns>:change`, both carrying
`{prop, old_value, new_value, timestamp}` with `old_value` the value
stored before the write; no event on any other namespace is emitted.  In
particular, in the scenario `a = {b: {c: 1}}`, traversing `a.b` emits
nothing, and the nested write `a.b.c = 2` emits `a.b:c:change` and
`a.b:change` but never `a:change`. -/
theorem claim_C1_write_emits_two_events (h : Heap) (r : Nat) (ns s : String)
    (nv : JSVal) (ts : Nat) (o : RawObj) (ho : heapGet h r = some o) :
    ((setTrap h r ns (.str s) nv ts).thrown = none ∧
     (setTrap h r ns (.str s) nv ts).heap = heapSet h r (rawSet o (.str s) nv) ∧
     emittedEvents (setTrap h r ns (.str s) nv ts).effs =
       [(ns ++ ":" ++ s ++ ":change",
         .change s (.raw (rawGet o (.str s))) (.raw nv) ts),
        (ns ++ ":change",
         .change s (.raw (rawGet o (.str s))) (.raw nv) ts)]) ∧
    (getTrap nestedHeapA nestedCacheA 0 "a" (.str "b") 8 =
       .ok (.nodeV 1 "a.b", nestedCacheA ++ [(1, "a.b")], []) ∧
     (emittedEvents (setTrap nestedHeapA 1 "a.b" (.str "c") (.vInt 2) 8).effs).map
        Prod.fst = ["a.b:c:change", "a.b:change"] ∧
     "a:change" ∉ (emittedEvents (setTrap nestedHeapA 1 "a.b" (.str "c")
        (.vInt 2) 8).effs).map Prod.fst) := by
  constructor
  · unfold setTrap
    rw [ho]
    by_cases hob : (rawGet o (.str s)).isObjectLike
    · simp [hob, PKey.interp, emittedEvents]
    · simp [hob, PKey.interp, emittedEvents]
  · exact ⟨rfl, by decide, by decide⟩

/-- Concrete instance of C1: writing `2` over the stored `1` at property
`p` of a one-object heap. -/
theorem claim_C1_witness :
    heapGet [(⟨false, [], [(.str "p", .vInt 1)]⟩ : RawObj)] 0 =
      some ⟨false, [], [(.str "p", .vInt 1)]⟩ ∧
    emittedEvents (setTrap [⟨false, [], [(.str "p", .vInt 1)]⟩] 0 "n"
        (.str "p") (.vInt 2) 0).effs =
      [("n:p:change", .change "p" (.raw (.vInt 1)) (.raw (.vInt 2)) 0),
       ("n:change", .change "p" (.raw (.vInt 1)) (.raw (.vInt 2)) 0)] :=
  ⟨by decide,
   by
    have := (claim_C1_write_emits_two_events
      [⟨false, [], [(.str "p", .vInt 1)]⟩] 0 "n" "p" (.vInt 2) 0
      ⟨false, [], [(.str "p", .vInt 1)]⟩ (by decide)).1.2.2
    simpa [rawGet, aget] using this⟩

/-! ## C2: primitive reads emit the specific then the generic read event -/

/-- The Boolean interception guard of the get trap, from its two
conjuncts. -/
theorem mut_cond_true {o : RawObj} {t : String} (ha : o.isArr = true)
    (hs : t ∈ ARRAY_MUTATORS) :
    (o.isArr && ARRAY_MUTATORS.contains t) = true := by
  rw [ha]
  simpa using hs

/-- The two conjuncts of the get trap's interception guard. -/
theorem mut_cond_elim {o : RawObj} {t : String}
    (h : (o.isArr && ARRAY_MUTATORS.contains t) = true) :
    o.isArr = true ∧ t ∈ ARRAY_MUTATORS := by
  rcases (Bool.and_eq_true _ _).mp h with ⟨ha, hct⟩
  exact ⟨ha, by simpa using hct⟩

/-- C2.  Reading a string-keyed property holding a primitive (non-object)
value, whose name does not start with an underscore (and which is not an
intercepted array-mutator name), emits exactly two events, in order
`<ns>:<prop>:read` then `<ns>:read`, both carrying the raw stored value,
and returns that raw value.  Moreover no `.ok` outcome of the get trap
for a symbol key or an underscore-prefixed key carries any emission. -/
theorem claim_C2_read_emits_two_events (h : Heap) (c : Cache) (r : Nat)
    (ns s : String) (ts : Nat) (o : RawObj) (ho : heapGet h r = some o)
    (hm : ¬ (o.isArr = true ∧ s ∈ ARRAY_MUTATORS))
    (hp : (rawGet o (.str s)).isObjectLike = false)
    (hu : underscoreFirst s = false) :
    getTrap h c r ns (.str s) ts =
      .ok (.primV (rawGet o (.str s)), c,
        [.emit (ns ++ ":" ++ s ++ ":read") (.readPl s (rawGet o (.str s)) ts),
         .emit (ns ++ ":read") (.readPl s (rawGet o (.str s)) ts)]) ∧
    (∀ (k : PKey) (res : GetResult × Cache × List Eff),
        ((∃ n, k = PKey.sym n) ∨
         (∃ t, k = PKey.str t ∧ underscoreFirst t = true)) →
        getTrap h c r ns k ts = .ok res → res.2.2 = []) := by
  constructor
  · unfold getTrap
    rw [ho]
    simp [hp, hu]
    exact fun ha hs => hm ⟨ha, hs⟩
  · intro k res hk hok
    rcases hk with ⟨n, rfl⟩ | ⟨t, rfl, ht⟩
    · by_cases hv : (rawGet o (.sym n)).isObjectLike
      · have : getTrap h c r ns (.sym n) ts =
            .error "TypeError: Cannot convert a Symbol value to a string" := by
          unfold getTrap
          rw [ho]
          simp [hv, PKey.interp]
        rw [this] at hok
        exact absurd hok (by simp)
      · have : getTrap h c r ns (.sym n) ts =
            .ok (.primV (rawGet o (.sym n)), c, []) := by
          unfold getTrap
          rw [ho]
          simp [eq_false_of_ne_true (fun hc => hv hc), hv]
        rw [this] at hok
        injection hok with h1
        rw [← h1]
    · by_cases hmt : (o.isArr && ARRAY_MUTATORS.contains t) = true
      · have : getTrap h c r ns (.str t) ts = .ok (.mutatorFn t, c, []) := by
          unfold getTrap
          rw [ho]
          simp [hmt]
          intro hcon
          exact absurd (mut_cond_elim hmt).2 (hcon (mut_cond_elim hmt).1)
        rw [this] at hok
        injection hok with h1
        rw [← h1]
      · by_cases hv : (rawGet o (.str t)).isObjectLike
        · rcases hcr : createReactive c (rawGet o (.str t)) (ns ++ "." ++ t)
            with ⟨rv, c'⟩
          cases rv with
          | node r' ns' =>
              have : getTrap h c r ns (.str t) ts = .ok (.nodeV r' ns', c', []) := by
                unfold getTrap
                rw [ho]
                simp [hmt, hv, PKey.interp, hcr]
                exact fun ha hs => hmt (mut_cond_true ha hs)
              rw [this] at hok
              injection hok with h1
              rw [← h1]
          | prim v =>
              have : getTrap h c r ns (.str t) ts = .ok (.primV v, c', []) := by
                unfold getTrap
                rw [ho]
                simp [hmt, hv, PKey.interp, hcr]
                exact fun ha hs => hmt (mut_cond_true ha hs)
              rw [this] at hok
              injection hok with h1
              rw [← h1]
        · have : getTrap h c r ns (.str t) ts =
              .ok (.primV (rawGet o (.str t)), c, []) := by
            unfold getTrap
            rw [ho]
            simp [hmt, hv, ht]
            exact fun ha hs => hmt (mut_cond_true ha hs)
          rw [this] at hok
          injection hok with h1
          rw [← h1]

/-- Concrete instance of C2: reading the primitive `count` on a wrapped
`state` object emits `state:count:read` then `state:read`, and a
symbol-keyed read of the same node emits nothing. -/
theorem claim_C2_witness :
    getTrap [(⟨false, [], [(.str "count", .vInt 5)]⟩ : RawObj)] [(0, "state")]
        0 "state" (.str "count") 3 =
      .ok (.primV (.vInt 5), [(0, "state")],
        [.emit "state:count:read" (.readPl "count" (.vInt 5) 3),
         .emit "state:read" (.readPl "count" (.vInt 5) 3)]) ∧
    (∀ res, getTrap [(⟨false, [], [(.str "count", .vInt 5)]⟩ : RawObj)]
        [(0, "state")] 0 "state" (.sym 0) 3 = .ok res → res.2.2 = []) := by
  have h := claim_C2_read_emits_two_events
    [(⟨false, [], [(.str "count", .vInt 5)]⟩ : RawObj)] [(0, "state")] 0
    "state" "count" 3 ⟨false, [], [(.str "count", .vInt 5)]⟩
    (by decide) (by decide) (by decide) (by decide)
  constructor
  · have h1 := h.1
    simpa [rawGet, aget] using h1
  · intro res hres
    exact h.2 (.sym 0) res (Or.inl ⟨0, rfl⟩) hres

/-! ## C3: array mutators emit exactly one generic change event -/

/-- C3.  For each of the nine recognized mutating array methods, reading
the method name off a reactive array node emits nothing and yields the
bound mutator closure, and invoking that closure performs the mutation
on the raw array and emits exactly one event, named `<ns>:change`, whose
payload carries the method name, the arguments, and the post-mutation
length of the array; no per-index or per-element change event is emitted
(the effect list is that singleton).  The spec scenario follows: on
`items = []`, `push("a")` then `push("b")` emit two `items:change`
events with lengths 1 and 2. -/
theorem claim_C3_array_mutation_single_event (h : Heap) (c : Cache) (r : Nat)
    (ns method : String) (args : List JSVal) (ts : Nat) (o : RawObj)
    (ho : heapGet h r = some o) (ha : o.isArr = true)
    (hm : method ∈ ARRAY_MUTATORS) :
    getTrap h c r ns (.str method) ts = .ok (.mutatorFn method, c, []) ∧
    callMutator h r ns method args ts =
      (heapSet h r { o with elems := (applyMutator method args o.elems).1 },
       (applyMutator method args o.elems).2,
       [.emit (ns ++ ":change")
          (.arrayMutation method args
            (applyMutator method args o.elems).1.length ts)]) ∧
    (callMutator [(⟨true, [], []⟩ : RawObj)] 0 "items" "push" [.vStr "a"] 1 =
       ([⟨true, [.vStr "a"], []⟩], .num 1,
        [.emit "items:change" (.arrayMutation "push" [.vStr "a"] 1 1)]) ∧
     callMutator [(⟨true, [.vStr "a"], []⟩ : RawObj)] 0 "items" "push"
        [.vStr "b"] 2 =
       ([⟨true, [.vStr "a", .vStr "b"], []⟩], .num 2,
        [.emit "items:change"
          (.arrayMutation "push" [.vStr "b"] 2 2)])) := by
  refine ⟨?_, ?_, by decide, by decide⟩
  · unfold getTrap
    rw [ho]
    simp [mut_cond_true ha hm]
    intro hcon
    exact absurd hm (hcon ha)
  · unfold callMutator
    rw [ho]

/-- Concrete instance of C3: `splice(0, 1)` on a wrapped two-element
array mutates the raw array and emits the single generic change
event. -/
theorem claim_C3_witness :
    heapGet [(⟨true, [.vInt 1, .vInt 2], []⟩ : RawObj)] 0 =
      some ⟨true, [.vInt 1, .vInt 2], []⟩ ∧
    ("splice" ∈ ARRAY_MUTATORS) ∧
    callMutator [(⟨true, [.vInt 1, .vInt 2], []⟩ : RawObj)] 0 "items"
        "splice" [.vInt 0, .vInt 1] 4 =
      ([⟨true, [.vInt 2], []⟩], .arrList [.vInt 1],
       [.emit "items:change"
          (.arrayMutation "splice" [.vInt 0, .vInt 1] 1 4)]) := by
  refine ⟨by decide, by decide, ?_⟩
  have h := (claim_C3_array_mutation_single_event
    [(⟨true, [.vInt 1, .vInt 2], []⟩ : RawObj)] [] 0 "items" "splice"
    [.vInt 0, .vInt 1] 4 ⟨true, [.vInt 1, .vInt 2], []⟩
    (by decide) (by decide) (by decide)).2.1
  rw [h]
  decide

/-! ## C4: identity-stable wrapping -/

/-- Wrapping the same raw target again — under any namespace — returns
exactly the node produced the first time and leaves the cache untouched
(the cache-hit path of `#createReactive`). -/
theorem createReactive_idem (c : Cache) (v : JSVal) (ns ns2 : String) :
    createReactive ((createReactive c v ns).2) v ns2 =
      ((createReactive c v ns).1, (createReactive c v ns).2) := by
  cases v with
  | vRef r =>
      cases hc : aget c r with
      | some ns0 => simp [createReactive, hc]
      | none => simp [createReactive, hc, aget_append_none hc ns]
  | vUndef => simp [createReactive]
  | vNull => simp [createReactive]
  | vInt n => simp [createReactive]
  | vStr s => simp [createReactive]
  | vBool b => simp [createReactive]

/-- `#createReactive` never creates a second cache entry for a raw
reference that already has one. -/
theorem createReactive_nodup (c : Cache) (v : JSVal) (ns : String)
    (h : (c.map Prod.fst).Nodup) :
    (((createReactive c v ns).2).map Prod.fst).Nodup := by
  cases v with
  | vRef r =>
      cases hc : aget c r with
      | some ns0 => simpa [createReactive, hc] using h
      | none =>
          have hnm := aget_none_not_mem hc
          simp only [createReactive, hc, List.map_append]
          rw [List.nodup_append]
          refine ⟨h, List.nodup_singleton r, ?_⟩
          intro x hx hmem
          simp only [List.map_cons, List.map_nil, List.mem_singleton] at hmem
          subst hmem
          exact hnm hx
  | vUndef => simpa [createReactive] using h
  | vNull => simpa [createReactive] using h
  | vInt n => simpa [createReactive] using h
  | vStr s => simpa [createReactive] using h
  | vBool b => simpa [createReactive] using h

/-- C4.  Identity stability: (i) wrapping a value whose raw target was
already wrapped returns the identical node and an unchanged cache, for
any namespace argument; (ii) if the cache maps each raw reference to at
most one proxy, it still does after any wrap — each raw object has at
most one reactive node per host instance; (iii) consequently, reaching
the same object-valued property through the get trap — the conditions
spell out the wrap branch of the trap — yields the identical node on the
repeated access, with no emission either time. -/
theorem claim_C4_identity_stability (c : Cache) (v : JSVal) (ns ns2 : String) :
    (createReactive ((createReactive c v ns).2) v ns2 =
      ((createReactive c v ns).1, (createReactive c v ns).2)) ∧
    ((c.map Prod.fst).Nodup →
      (((createReactive c v ns).2).map Prod.fst).Nodup) ∧
    (∀ (h : Heap) (c0 c' : Cache) (o : RawObj) (r r' : Nat)
        (nsp ns' : String) (t : String) (ts : Nat),
        heapGet h r = some o →
        (o.isArr && ARRAY_MUTATORS.contains t) = false →
        (rawGet o (.str t)).isObjectLike = true →
        createReactive c0 (rawGet o (.str t)) (nsp ++ "." ++ t) =
          (.node r' ns', c') →
        getTrap h c0 r nsp (.str t) ts = .ok (.nodeV r' ns', c', []) ∧
        getTrap h c' r nsp (.str t) ts = .ok (.nodeV r' ns', c', [])) := by
  refine ⟨createReactive_idem c v ns ns2, createReactive_nodup c v ns, ?_⟩
  intro h c0 c' o r r' nsp ns' t ts hg hmt hv hcr
  have hmt' : ¬ (o.isArr && ARRAY_MUTATORS.contains t) = true := by
    rw [hmt]
    exact Bool.false_ne_true
  constructor
  · unfold getTrap
    rw [hg]
    simp [hv, PKey.interp, hcr]
    exact fun ha hs => hmt' (mut_cond_true ha hs)
  · have hcr' : createReactive c' (rawGet o (.str t)) (nsp ++ "." ++ t) =
        (.node r' ns', c') := by
      have hidem := createReactive_idem c0 (rawGet o (.str t))
        (nsp ++ "." ++ t) (nsp ++ "." ++ t)
      rw [hcr] at hidem
      exact hidem
    unfold getTrap
    rw [hg]
    simp [hv, PKey.interp, hcr']
    exact fun ha hs => hmt' (mut_cond_true ha hs)

/-- Concrete instance of C4: wrapping raw object `0` twice returns the
same node with the same cache, nodup cache keys are preserved, and the
repeated traversal of the object-valued property `b` yields the
identical node both times. -/
theorem claim_C4_witness :
    (createReactive ((createReactive [] (.vRef 0) "a").2) (.vRef 0) "b" =
      ((createReactive [] (.vRef 0) "a").1,
       (createReactive [] (.vRef 0) "a").2)) ∧
    ((((createReactive [] (.vRef 0) "a").2).map Prod.fst).Nodup) ∧
    (getTrap [(⟨false, [], [(.str "b", .vRef 1)]⟩ : RawObj), ⟨false, [], []⟩]
        [(0, "a")] 0 "a" (.str "b") 5 =
      .ok (.nodeV 1 "a.b", [(0, "a"), (1, "a.b")], []) ∧
     getTrap [(⟨false, [], [(.str "b", .vRef 1)]⟩ : RawObj), ⟨false, [], []⟩]
        [(0, "a"), (1, "a.b")] 0 "a" (.str "b") 5 =
      .ok (.nodeV 1 "a.b", [(0, "a"), (1, "a.b")], [])) := by
  have h := claim_C4_identity_stability [] (.vRef 0) "a" "b"
  refine ⟨h.1, h.2.1 (by decide), ?_⟩
  exact h.2.2 [⟨false, [], [(.str "b", .vRef 1)]⟩, ⟨false, [], []⟩]
    [(0, "a")] [(0, "a"), (1, "a.b")] ⟨false, [], [(.str "b", .vRef 1)]⟩
    0 1 "a" "a.b" "b" 5 (by decide) (by decide) (by decide) (by decide)

/-! ## C5: ordered, fault-isolated dispatch -/

/-- Dispatch over listeners that do not touch the listener table: from
any start index, the loop invokes the remaining registered callbacks in
order, logging a `console.error` after each one that throws, and leaves
the table unchanged. -/
theorem emitSteps_plain (reg : Registry) (event : String) (pl : Payload)
    (l : List Nat) (b : Nat → Bool) (tbl : LTable)
    (hl : aget tbl event = some l)
    (hreg : ∀ id ∈ l, aget reg id = some (.plain [] (b id))) :
    ∀ (fuel i : Nat), l.length ≤ i + fuel →
      emitSteps reg event pl fuel tbl i =
        (tbl, (l.drop i).flatMap (fun id => DEff.invoked id pl ::
          (if b id then [DEff.errorLogged event] else []))) := by
  intro fuel
  induction fuel with
  | zero =>
      intro i hle
      rw [List.drop_eq_nil_of_le (by omega)]
      rfl
  | succ fuel ih =>
      intro i hle
      rw [emitSteps]
      simp only [hl, Option.getD_some]
      cases hgi : l.get? i with
      | none =>
          rw [List.drop_eq_nil_of_le
            (le_of_not_lt (fun hlt => by
              rw [List.get?_eq_get hlt] at hgi
              exact Option.noConfusion hgi))]
          rfl
      | some cbId =>
          have hmem : cbId ∈ l := List.get?_mem hgi
          have hlt : i < l.length := by
            by_contra hge
            rw [List.get?_eq_none.mpr (le_of_not_lt hge)] at hgi
            exact Option.noConfusion hgi
          have hrc : runCb reg tbl cbId = (tbl, b cbId, []) := by
            unfold runCb
            rw [hreg cbId hmem]
            rfl
          simp only [hrc, ih (i + 1) (by omega)]
          have hdrop : l.drop i = cbId :: l.drop (i + 1) := by
            rw [List.drop_eq_getElem_cons hlt]
            congr 1
            have := List.get?_eq_getElem? l i
            rw [hgi] at this
            have h2 := List.getElem?_eq_getElem hlt
            rw [h2] at this
            exact (Option.some.injEq _ _ ▸ this).symm
          rw [hdrop]
          simp

/-- C5.  When every listener registered for an event leaves the listener
table alone, `#emit` invokes them all in registration order, passing
each the payload (and the host); each throwing listener is caught and
reported via `console.error`; every remaining listener still runs after
a throw; the table is unchanged and the emission returns normally (the
dispatch function is total — no exception reaches the triggering
read/write). -/
theorem claim_C5_dispatch_order_and_isolation (reg : Registry)
    (tbl : LTable) (event : String) (pl : Payload) (l : List Nat)
    (b : Nat → Bool) (hl : aget tbl event = some l)
    (hreg : ∀ id ∈ l, aget reg id = some (.plain [] (b id))) :
    emit reg tbl event pl l.length =
      (tbl, l.flatMap (fun id => DEff.invoked id pl ::
        (if b id then [DEff.errorLogged event] else []))) := by
  unfold emit
  rw [hl]
  have := emitSteps_plain reg event pl l b tbl hl hreg l.length 0 (by omega)
  simpa using this

/-- Concrete instance of C5 — the spec's listener-isolation scenario: of
two listeners on one event, the first throws; the second still runs, the
error is logged between the two invocations, and the table survives
unchanged. -/
theorem claim_C5_witness :
    emit [(1, .plain [] true), (2, .plain [] false)] [("e", [1, 2])] "e"
        (.readPl "p" .vUndef 0) 2 =
      ([("e", [1, 2])],
       [.invoked 1 (.readPl "p" .vUndef 0), .errorLogged "e",
        .invoked 2 (.readPl "p" .vUndef 0)]) := by
  have h := claim_C5_dispatch_order_and_isolation
    [(1, .plain [] true), (2, .plain [] false)] [("e", [1, 2])] "e"
    (.readPl "p" .vUndef 0) [1, 2] (fun id => id == 1)
    (by decide) (by decide)
  simpa using h

/-! ## C6: dispatch iterates the live listener list, not a snapshot -/

/-- The payload used in the C6 dispatch scenarios. -/
def c6pl : Payload := .readPl "p" .vUndef 0

/-- C6 counterexample.  Two listeners are registered for `e` at dispatch
start; the first removes itself while running.  Contrary to the claim
that every listener present in the snapshot taken at dispatch start
runs, listener 2 is never invoked: the `for…of` loop iterates the live
array, the splice shifts listener 2 into the already-visited index, and
the iteration ends. -/
theorem claim_C6_counterexample :
    (emit [(1, .plain [.offOp "e" 1] false), (2, .plain [] false)]
        [("e", [1, 2])] "e" c6pl 5).2 = [.invoked 1 c6pl] ∧
    DEff.invoked 2 c6pl ∉
      (emit [(1, .plain [.offOp "e" 1] false), (2, .plain [] false)]
        [("e", [1, 2])] "e" c6pl 5).2 := by
  decide

/-- C6 amended.  Dispatch iterates the live listener array by index:
when the first of two registered listeners removes itself during its own
run, the emission invokes only that first listener — the second listener,
although present at dispatch start, is skipped — and the table afterwards
holds exactly the second listener. -/
theorem claim_C6_live_iteration_skips (event : String) (pl : Payload)
    (a bId : Nat) (reg : Registry) (tbl : LTable)
    (hra : aget reg a = some (.plain [.offOp event a] false))
    (hl : aget tbl event = some [a, bId]) (fuel : Nat) :
    emit reg tbl event pl (fuel + 1) =
      (aset tbl event [bId], [.invoked a pl]) := by
  unfold emit
  rw [hl]
  rw [emitSteps]
  simp only [hl, Option.getD_some]
  have hrc : runCb reg tbl a = (off tbl event a, false, []) := by
    unfold runCb
    rw [hra]
    rfl
  have hoff : off tbl event a = aset tbl event [bId] := by
    unfold off
    rw [hl]
    simp [removeFirst]
  simp only [List.get?, hrc, hoff]
  cases fuel with
  | zero =>
      rw [emitSteps]
      simp
  | succ f =>
      rw [emitSteps]
      simp [aget_aset_self]

/-- Concrete instance of the amended C6: with listeners 3 (self-removing)
and 4 registered for `ev`, the emission invokes only listener 3 and
leaves only listener 4 registered. -/
theorem claim_C6_witness :
    emit [(3, .plain [.offOp "ev" 3] false), (4, .plain [] false)]
        [("ev", [3, 4])] "ev" c6pl 1 =
      ([("ev", [4])], [.invoked 3 c6pl]) := by
  have h := claim_C6_live_iteration_skips "ev" c6pl 3 4
    [(3, .plain [.offOp "ev" 3] false), (4, .plain [] false)]
    [("ev", [3, 4])] (by decide) (by decide) 0
  simpa [aset] using h

/-! ## C7: `once` semantics and its failure for throwing callbacks -/

/-- The payload used in the C7 scenarios. -/
def c7pl : Payload := .readPl "q" .vUndef 1

/-- C7 counterexample.  A listener registered via `once` whose callback
throws runs on *every* emission, not exactly once: the wrapper invokes
the callback before unregistering itself, so the throw (caught by
`#emit`) skips the `off` call, the wrapper stays registered, and the
second emission invokes the callback again. -/
theorem claim_C7_counterexample :
    (emit (once [] [] "e" 5 [] true 10).1 (once [] [] "e" 5 [] true 10).2
        "e" c7pl 2).1 = (once [] [] "e" 5 [] true 10).2 ∧
    DEff.invoked 5 c7pl ∈
      (emit (once [] [] "e" 5 [] true 10).1 (once [] [] "e" 5 [] true 10).2
        "e" c7pl 2).2 ∧
    DEff.invoked 5 c7pl ∈
      (emit (once [] [] "e" 5 [] true 10).1
        (emit (once [] [] "e" 5 [] true 10).1 (once [] [] "e" 5 [] true 10).2
          "e" c7pl 2).1 "e" c7pl 2).2 := by
  decide

/-- C7 amended.  For a fresh event and a fresh wrapper id: `once`
registers a wrapper distinct from the callback; when the callback
returns normally it runs exactly once across two emissions (the second
emission invokes nothing, the wrapper having removed itself right after
the first invocation); `off` with the original callback does not remove
the registration, while the unsubscribe closure returned by `once`
(`off` on the wrapper) does; but when the callback throws, the wrapper
is never unregistered and the callback runs again on the second
emission. -/
theorem claim_C7_once_amended (event : String) (pl pl2 : Payload)
    (innerId wrapperId : Nat) (reg0 : Registry) (tbl0 : LTable)
    (hne : wrapperId ≠ innerId)
    (hfresh : aget tbl0 event = none)
    (hreg : aget reg0 wrapperId = none) :
    (once reg0 tbl0 event innerId [] false wrapperId).2 =
      tbl0 ++ [(event, [wrapperId])] ∧
    emit (once reg0 tbl0 event innerId [] false wrapperId).1
        (tbl0 ++ [(event, [wrapperId])]) event pl 2 =
      (tbl0 ++ [(event, [])],
       [.invoked wrapperId pl, .invoked innerId pl]) ∧
    List.count (DEff.invoked innerId pl)
        [DEff.invoked wrapperId pl, DEff.invoked innerId pl] = 1 ∧
    emit (once reg0 tbl0 event innerId [] false wrapperId).1
        (tbl0 ++ [(event, [])]) event pl2 2 =
      (tbl0 ++ [(event, [])], []) ∧
    off (tbl0 ++ [(event, [wrapperId])]) event innerId =
      tbl0 ++ [(event, [wrapperId])] ∧
    off (tbl0 ++ [(event, [wrapperId])]) event wrapperId =
      tbl0 ++ [(event, [])] ∧
    emit (once reg0 tbl0 event innerId [] true wrapperId).1
        (once reg0 tbl0 event innerId [] true wrapperId).2 event pl 2 =
      (tbl0 ++ [(event, [wrapperId])],
       [.invoked wrapperId pl, .invoked innerId pl, .errorLogged event]) ∧
    emit (once reg0 tbl0 event innerId [] true wrapperId).1
        (tbl0 ++ [(event, [wrapperId])]) event pl2 2 =
      (tbl0 ++ [(event, [wrapperId])],
       [.invoked wrapperId pl2, .invoked innerId pl2,
        .errorLogged event]) := by
  have htbl1 : (onEv tbl0 event wrapperId) = tbl0 ++ [(event, [wrapperId])] := by
    unfold onEv
    rw [hfresh]
  have h2 : aget (tbl0 ++ [(event, [wrapperId])]) event = some [wrapperId] :=
    aget_append_none hfresh _
  have hempty : aget (tbl0 ++ [(event, [])]) event = some [] :=
    aget_append_none hfresh _
  have hoffw : off (tbl0 ++ [(event, [wrapperId])]) event wrapperId =
      tbl0 ++ [(event, [])] := by
    unfold off
    rw [h2]
    simp only [removeFirst, if_pos rfl]
    exact aset_append_none hfresh _ _
  have hoffi : off (tbl0 ++ [(event, [wrapperId])]) event innerId =
      tbl0 ++ [(event, [wrapperId])] := by
    unfold off
    rw [h2]
    simp only [removeFirst, if_neg hne]
    exact aset_append_none hfresh _ _
  have hregF : aget (once reg0 tbl0 event innerId [] false wrapperId).1
      wrapperId = some (.onceWrapper event innerId [] false wrapperId) :=
    aget_append_none hreg _
  have hregT : aget (once reg0 tbl0 event innerId [] true wrapperId).1
      wrapperId = some (.onceWrapper event innerId [] true wrapperId) :=
    aget_append_none hreg _
  have hrunF : runCb (once reg0 tbl0 event innerId [] false wrapperId).1
      (tbl0 ++ [(event, [wrapperId])]) wrapperId =
      (tbl0 ++ [(event, [])], false, [innerId]) := by
    unfold runCb
    rw [hregF]
    simpa [applyLOps] using hoffw
  have hrunT : runCb (once reg0 tbl0 event innerId [] true wrapperId).1
      (tbl0 ++ [(event, [wrapperId])]) wrapperId =
      (tbl0 ++ [(event, [wrapperId])], true, [innerId]) := by
    unfold runCb
    rw [hregT]
    rfl
  refine ⟨htbl1, ?_, by simp [List.count_cons, hne], ?_, hoffi, hoffw, ?_, ?_⟩
  · unfold emit
    rw [h2]
    rw [emitSteps]
    simp only [h2, Option.getD_some, List.get?, hrunF]
    rw [emitSteps]
    simp [hempty]
  · unfold emit
    rw [hempty]
    rw [emitSteps]
    simp [hempty]
  · unfold emit
    rw [show (once reg0 tbl0 event innerId [] true wrapperId).2 =
        tbl0 ++ [(event, [wrapperId])] from htbl1]
    rw [h2]
    rw [emitSteps]
    simp only [h2, Option.getD_some, List.get?, hrunT]
    rw [emitSteps]
    simp [h2]
  · unfold emit
    rw [h2]
    rw [emitSteps]
    simp only [h2, Option.getD_some, List.get?, hrunT]
    rw [emitSteps]
    simp [h2]

/-- Concrete instance of the amended C7: `once` wrapper 9 around callback
6 on event `f` runs callback 6 exactly once across two emissions when it
returns normally, and the unsubscribe/`off` asymmetry holds. -/
theorem claim_C7_witness :
    (once [] [] "f" 6 [] false 9).2 = [("f", [9])] ∧
    emit (once [] [] "f" 6 [] false 9).1 [("f", [9])] "f" c7pl 2 =
      ([("f", [])], [.invoked 9 c7pl, .invoked 6 c7pl]) ∧
    emit (once [] [] "f" 6 [] false 9).1 [("f", [])] "f" c7pl 2 =
      ([("f", [])], []) ∧
    off [("f", [9])] "f" 6 = [("f", [9])] ∧
    off [("f", [9])] "f" 9 = [("f", [])] := by
  have h := claim_C7_once_amended "f" c7pl c7pl 6 9 [] []
    (by decide) (by decide) (by decide)
  exact ⟨by simpa using h.1, by simpa using h.2.1,
    by simpa using h.2.2.2.1, by simpa using h.2.2.2.2.1,
    by simpa using h.2.2.2.2.2.1⟩

/-! ## C8: reassignment diagnostic, and the old wrapper is not inert -/

/-- The event names a string-keyed write emits depend only on the node's
captured namespace and the property name — never on which raw object the
node wraps. -/
theorem setTrap_emitted_names (h : Heap) (r : Nat) (ns s : String)
    (nv : JSVal) (ts : Nat) (o : RawObj) (ho : heapGet h r = some o) :
    (emittedEvents (setTrap h r ns (.str s) nv ts).effs).map Prod.fst =
      [ns ++ ":" ++ s ++ ":change", ns ++ ":change"] := by
  unfold setTrap
  rw [ho]
  by_cases hob : (rawGet o (.str s)).isObjectLike
  · simp [hob, PKey.interp, emittedEvents]
  · simp [hob, PKey.interp, emittedEvents]

/-- The raw store of the reassignment scenario: reference 0 is the root
`state` object whose `user` property holds reference 1; reference 2 is
the replacement object. -/
def c8heap : Heap :=
  [⟨false, [], [(.str "user", .vRef 1)]⟩,
   ⟨false, [], [(.str "name", .vStr "a")]⟩,
   ⟨false, [], [(.str "name", .vStr "b")]⟩]

/-- The cache after `state` and the old `state.user` were both wrapped
(the old wrapper for reference 1 captured namespace `state.user`). -/
def c8cache : Cache := [(0, "state"), (1, "state.user")]

/-- C8 counterexample.  After `state.user` (an object) is replaced by a
new object — which emits the reassignment warning and the change events,
and after which traversal wraps the *new* object under the same
`state.user` namespace — a write through the *old* wrapper still emits
`state.user:name:change`, and a listener registered for exactly that
event (the new subtree's event name) is invoked: the old wrapper is not
inert, contradicting the claim. -/
theorem claim_C8_counterexample :
    (setTrap c8heap 0 "state" (.str "user") (.vRef 2) 1).effs =
      [.warn "object" "user",
       .emit "state:user:change"
         (.change "user" (.raw (.vRef 1)) (.raw (.vRef 2)) 1),
       .emit "state:change"
         (.change "user" (.raw (.vRef 1)) (.raw (.vRef 2)) 1)] ∧
    getTrap (setTrap c8heap 0 "state" (.str "user") (.vRef 2) 1).heap
        c8cache 0 "state" (.str "user") 2 =
      .ok (.nodeV 2 "state.user", c8cache ++ [(2, "state.user")], []) ∧
    DEff.invoked 7 (.change "name" (.raw (.vStr "a")) (.raw (.vStr "x")) 3) ∈
      (dispatchEffs [(7, .plain [] false)] [("state.user:name:change", [7])]
        (setTrap (setTrap c8heap 0 "state" (.str "user") (.vRef 2) 1).heap 1
          "state.user" (.str "name") (.vStr "x") 3).effs 2).2 := by
  refine ⟨by decide, rfl, by decide⟩

/-- C8 amended.  Replacing a stored non-null object/array emits the
warning-level reassignment diagnostic first, followed by the usual
change event(s) — two for a nested write, one for a root field write —
and the write completes normally; but a subsequent mutation through the
previously returned (old) wrapper is not inert: its event names are
computed from the captured namespace alone, so it emits exactly the
event names the new subtree's writes emit, and listeners subscribed
under those names fire (shown concretely by the counterexample). -/
theorem claim_C8_reassignment_diagnostic (h : Heap) (r q : Nat)
    (ns s name nsq : String) (nv : JSVal) (ts : Nat) (o : RawObj)
    (host : Host) (ho : heapGet h r = some o)
    (hold : rawGet o (.str s) = .vRef q) :
    (setTrap h r ns (.str s) nv ts).effs =
      [.warn (typeNameOf h (.vRef q)) s,
       .emit (ns ++ ":" ++ s ++ ":change")
         (.change s (.raw (.vRef q)) (.raw nv) ts),
       .emit (ns ++ ":change")
         (.change s (.raw (.vRef q)) (.raw nv) ts)] ∧
    (setTrap h r ns (.str s) nv ts).thrown = none ∧
    (setTrap h r ns (.str s) nv ts).heap = heapSet h r (rawSet o (.str s) nv) ∧
    (aget host.fields name = some (.node q nsq) →
      (fieldSet host name nv ts).2 =
        [.warn (typeNameOf host.heap (.vRef q)) name,
         .emit (name ++ ":change")
           (.change name (.proxy q nsq) (.raw nv) ts)]) ∧
    (∀ (h2 : Heap) (r2 : Nat) (o2 : RawObj) (nv2 : JSVal) (ts2 : Nat),
        heapGet h2 r2 = some o2 →
        (emittedEvents (setTrap h2 r2 ns (.str s) nv2 ts2).effs).map
          Prod.fst =
        (emittedEvents (setTrap h r ns (.str s) nv ts).effs).map
          Prod.fst) := by
  refine ⟨?_, ?_, ?_, ?_, ?_⟩
  · unfold setTrap
    rw [ho]
    simp [hold, PKey.interp, JSVal.isObjectLike]
  · unfold setTrap
    rw [ho]
    simp [hold, PKey.interp, JSVal.isObjectLike]
  · unfold setTrap
    rw [ho]
    simp [hold, PKey.interp, JSVal.isObjectLike]
  · intro hf
    unfold fieldSet
    rw [hf]
    rfl
  · intro h2 r2 o2 nv2 ts2 ho2
    rw [setTrap_emitted_names h2 r2 ns s nv2 ts2 o2 ho2,
      setTrap_emitted_names h r ns s nv ts o ho]

/-- Concrete instance of the amended C8: the reassignment of
`state.user` in the counterexample scenario warns then emits the two
change events, the root field variant warns then emits one, and the old
wrapper for reference 1 emits the same event names as a write through
any wrapper with namespace `state.user`. -/
theorem claim_C8_witness :
    (setTrap c8heap 0 "state" (.str "user") (.vRef 2) 9).effs =
      [.warn "object" "user",
       .emit "state:user:change"
         (.change "user" (.raw (.vRef 1)) (.raw (.vRef 2)) 9),
       .emit "state:change"
         (.change "user" (.raw (.vRef 1)) (.raw (.vRef 2)) 9)] ∧
    (fieldSet ⟨c8heap, c8cache, [("cfg", .node 1 "cfg")], ["cfg"]⟩ "cfg"
        (.vRef 2) 9).2 =
      [.warn "object" "cfg",
       .emit "cfg:change" (.change "cfg" (.proxy 1 "cfg") (.raw (.vRef 2)) 9)] ∧
    (emittedEvents (setTrap (setTrap c8heap 0 "state" (.str "user")
        (.vRef 2) 9).heap 1 "state" (.str "user") (.vStr "x") 10).effs).map
      Prod.fst =
      (emittedEvents (setTrap c8heap 0 "state" (.str "user") (.vRef 2)
        9).effs).map Prod.fst := by
  have h := claim_C8_reassignment_diagnostic c8heap 0 1 "state" "user" "cfg"
    "cfg" (.vRef 2) 9 ⟨false, [], [(.str "user", .vRef 1)]⟩
    ⟨c8heap, c8cache, [("cfg", .node 1 "cfg")], ["cfg"]⟩
    (by decide) (by decide)
  refine ⟨by simpa using h.1, ?_, ?_⟩
  · have h4 := h.2.2.2.1 (by decide)
    simpa using h4
  · exact h.2.2.2.2 (setTrap c8heap 0 "state" (.str "user") (.vRef 2) 9).heap
      1 ⟨false, [], [(.str "name", .vStr "a")]⟩ (.vStr "x") 10 (by decide)

/-! ## C9: symbol-keyed access through the traps -/

/-- C9.  Contrary to the claim that symbol-keyed access passes through
with no events and no error: (i) a symbol-keyed set on a node whose
stored old value is primitive performs the raw assignment and *then*
throws a `TypeError` while interpolating the symbol into the event name
(no event is emitted); (ii) a symbol-keyed get of an object-valued
property throws the same `TypeError` while building the child
namespace; (iii) a symbol-keyed get of a primitive-valued property does
pass through silently; (iv) a symbol-keyed set whose old value is an
object throws already while building the warning message, before the
raw assignment (the heap is unchanged). -/
theorem claim_C9_symbol_access_throws :
    setTrap [(⟨false, [], []⟩ : RawObj)] 0 "state" (.sym 0) (.vInt 1) 3 =
      { heap := [⟨false, [], [(.sym 0, .vInt 1)]⟩], effs := [],
        thrown := some "TypeError: Cannot convert a Symbol value to a string" } ∧
    getTrap [(⟨false, [], [(.sym 1, .vRef 1)]⟩ : RawObj), ⟨false, [], []⟩] []
        0 "state" (.sym 1) 3 =
      .error "TypeError: Cannot convert a Symbol value to a string" ∧
    getTrap [(⟨false, [], [(.sym 1, .vInt 7)]⟩ : RawObj)] [] 0 "state"
        (.sym 1) 3 = .ok (.primV (.vInt 7), [], []) ∧
    setTrap [(⟨false, [], [(.sym 0, .vRef 1)]⟩ : RawObj), ⟨false, [], []⟩] 0
        "state" (.sym 0) (.vInt 1) 3 =
      { heap := [⟨false, [], [(.sym 0, .vRef 1)]⟩, ⟨false, [], []⟩],
        effs := [],
        thrown := some "TypeError: Cannot convert a Symbol value to a string" } := by
  exact ⟨by decide, rfl, rfl, by decide⟩

/-! ## C10: sequential field declaration with fail-fast collision -/

/-- The first colliding entry of a definitions list against a set of own
properties, accounting for names installed by earlier entries of the
same list: its position and name. -/
def firstCollision (own : List String) : List (String × JSVal) →
    Option (Nat × String)
  | [] => none
  | (n, _) :: rest =>
      if own.contains n then some (0, n)
      else (firstCollision (own ++ [n]) rest).map (fun p => (p.1 + 1, p.2))

theorem aget_aset_isSome {κ α : Type} [DecidableEq κ]
    (l : List (κ × α)) (k k' : κ) (v : α)
    (h : (aget l k').isSome) : (aget (aset l k v) k').isSome := by
  induction l with
  | nil => simp [aget] at h
  | cons p rest ih =>
      rw [aset]
      by_cases hk : p.1 = k
      · rw [if_pos hk, aget]
        rw [aget] at h
        by_cases hk' : p.1 = k'
        · simp [hk']
        · rw [if_neg hk'] at h ⊢
          exact h
      · rw [if_neg hk, aget]
        rw [aget] at h
        by_cases hk' : p.1 = k'
        · simp [hk']
        · rw [if_neg hk'] at h ⊢
          exact ih h

/-- Installed fields survive any later `createReactiveFields` call: the
per-field storage is only ever extended or overwritten via `aset`. -/
theorem crf_fields_mono (defs : List (String × JSVal)) :
    ∀ (host : Host) (name : String),
      (aget host.fields name).isSome →
      (aget (createReactiveFields host defs).1.fields name).isSome := by
  induction defs with
  | nil =>
      intro host name hs
      exact hs
  | cons d rest ih =>
      intro host name hs
      rcases d with ⟨n, init⟩
      rw [createReactiveFields]
      by_cases hc : host.ownProps.contains n
      · rw [if_pos hc]
        exact hs
      · rw [if_neg hc]
        exact ih _ name (aget_aset_isSome _ _ _ _ hs)

/-- C10.  `createReactiveFields` processes the entries of its definitions
list in order.  If no entry's name collides with an own property of the
host (prior declarations included) or with an earlier entry of the same
call, every field is installed and nothing is thrown.  Otherwise the
`TypeError` is thrown exactly at the first colliding entry: the fields
of the earlier entries remain installed and readable (partial
application, no rollback), and the entries after the colliding one are
never processed — the outcome coincides with that of the truncated
list. -/
theorem claim_C10_field_declaration (host : Host)
    (defs : List (String × JSVal)) :
    (firstCollision host.ownProps defs = none →
      (createReactiveFields host defs).2 = none ∧
      (createReactiveFields host defs).1.ownProps =
        host.ownProps ++ defs.map Prod.fst) ∧
    (∀ (k : Nat) (n : String),
      firstCollision host.ownProps defs = some (k, n) →
      (createReactiveFields host defs).2 =
        some ("TypeError: Field " ++ n ++ " already exists") ∧
      createReactiveFields host defs =
        createReactiveFields host (defs.take (k + 1)) ∧
      (createReactiveFields host defs).1 =
        (createReactiveFields host (defs.take k)).1 ∧
      (createReactiveFields host (defs.take k)).2 = none ∧
      (∀ name ∈ (defs.take k).map Prod.fst,
        (fieldGet (createReactiveFields host defs).1 name).isSome)) := by
  induction defs generalizing host with
  | nil =>
      refine ⟨fun _ => ⟨rfl, by simp [createReactiveFields]⟩, ?_⟩
      intro k n hc
      rw [firstCollision] at hc
      exact Option.noConfusion hc
  | cons d rest ih =>
      rcases d with ⟨nm, init⟩
      by_cases hc : host.ownProps.contains nm
      · constructor
        · intro hnone
          rw [firstCollision, if_pos hc] at hnone
          exact Option.noConfusion hnone
        · intro k n hsome
          rw [firstCollision, if_pos hc] at hsome
          injection hsome with hp
          cases hp
          have hfull : createReactiveFields host ((nm, init) :: rest) =
              (host, some ("TypeError: Field " ++ nm ++ " already exists")) := by
            rw [createReactiveFields, if_pos hc]
          refine ⟨by rw [hfull], ?_, by rw [hfull]; rfl, rfl, by simp⟩
          rw [hfull]
          show _ = createReactiveFields host [(nm, init)]
          rw [createReactiveFields, if_pos hc]
      · have hstep : createReactiveFields host ((nm, init) :: rest) =
            createReactiveFields
              { host with
                  cache := (createReactive host.cache init nm).2,
                  fields := aset host.fields nm
                    (createReactive host.cache init nm).1,
                  ownProps := host.ownProps ++ [nm] } rest := by
          rw [createReactiveFields, if_neg hc]
        have hown :
            ({ host with
                cache := (createReactive host.cache init nm).2,
                fields := aset host.fields nm
                  (createReactive host.cache init nm).1,
                ownProps := host.ownProps ++ [nm] } : Host).ownProps =
              host.ownProps ++ [nm] := rfl
        constructor
        · intro hnone
          rw [firstCollision, if_neg hc] at hnone
          rw [Option.map_eq_none'] at hnone
          have hrest := (ih ({ host with
                cache := (createReactive host.cache init nm).2,
                fields := aset host.fields nm (createReactive host.cache init nm).1,
                ownProps := host.ownProps ++ [nm] } : Host)).1
          rw [hown] at hrest
          have hr := hrest hnone
          rw [hstep]
          refine ⟨hr.1, ?_⟩
          rw [hr.2]
          simp
        · intro k n hsome
          rw [firstCollision, if_neg hc] at hsome
          rw [Option.map_eq_some'] at hsome
          rcases hsome with ⟨⟨k2, n2⟩, hfc, hpk⟩
          have hk : k = k2 + 1 := (congrArg Prod.fst hpk).symm
          have hn : n = n2 := (congrArg Prod.snd hpk).symm
          subst hk
          subst hn
          have hrest := (ih ({ host with
                cache := (createReactive host.cache init nm).2,
                fields := aset host.fields nm (createReactive host.cache init nm).1,
                ownProps := host.ownProps ++ [nm] } : Host)).2 k2 n
          rw [hown] at hrest
          have hr := hrest hfc
          have htake1 : ((nm, init) :: rest).take (k2 + 1 + 1) =
              (nm, init) :: rest.take (k2 + 1) := rfl
          have htake0 : ((nm, init) :: rest).take (k2 + 1) =
              (nm, init) :: rest.take k2 := rfl
          have hstep1 : createReactiveFields host
              (((nm, init) :: rest).take (k2 + 1 + 1)) =
              createReactiveFields
                { host with
                    cache := (createReactive host.cache init nm).2,
                    fields := aset host.fields nm
                      (createReactive host.cache init nm).1,
                    ownProps := host.ownProps ++ [nm] } (rest.take (k2 + 1)) := by
            rw [htake1, createReactiveFields, if_neg hc]
          have hstep0 : createReactiveFields host
              (((nm, init) :: rest).take (k2 + 1)) =
              createReactiveFields
                { host with
                    cache := (createReactive host.cache init nm).2,
                    fields := aset host.fields nm
                      (createReactive host.cache init nm).1,
                    ownProps := host.ownProps ++ [nm] } (rest.take k2) := by
            rw [htake0, createReactiveFields, if_neg hc]
          refine ⟨?_, ?_, ?_, ?_, ?_⟩
          · rw [hstep]
            exact hr.1
          · rw [hstep, hstep1]
            exact hr.2.1
          · rw [hstep, hstep0]
            exact hr.2.2.1
          · rw [hstep0]
            exact hr.2.2.2.1
          · intro name hname
            rw [htake0] at hname
            simp only [List.map_cons, List.mem_cons] at hname
            rcases hname with hname | hname
            · subst hname
              rw [hstep]
              unfold fieldGet
              exact crf_fields_mono rest _ name
                (by simp [aget_aset_self])
            · rw [hstep]
              exact hr.2.2.2.2 name hname

/-- Concrete instance of C10: declaring `x`, `y`, `x`, `z` throws at the
duplicate `x` (position 2); `x` and `y` stay installed and readable; `z`
is never processed (the outcome equals that of the list truncated after
the collision). -/
theorem claim_C10_witness :
    firstCollision ([] : List String)
        [("x", .vInt 1), ("y", .vInt 2), ("x", .vInt 3), ("z", .vInt 4)] =
      some (2, "x") ∧
    (createReactiveFields ⟨[], [], [], []⟩
        [("x", .vInt 1), ("y", .vInt 2), ("x", .vInt 3), ("z", .vInt 4)]).2 =
      some "TypeError: Field x already exists" ∧
    createReactiveFields ⟨[], [], [], []⟩
        [("x", .vInt 1), ("y", .vInt 2), ("x", .vInt 3), ("z", .vInt 4)] =
      createReactiveFields ⟨[], [], [], []⟩
        [("x", .vInt 1), ("y", .vInt 2), ("x", .vInt 3)] ∧
    (∀ name ∈ ["x", "y"],
      (fieldGet (createReactiveFields ⟨[], [], [], []⟩
        [("x", .vInt 1), ("y", .vInt 2), ("x", .vInt 3),
         ("z", .vInt 4)]).1 name).isSome) := by
  have h := (claim_C10_field_declaration ⟨[], [], [], []⟩
    [("x", .vInt 1), ("y", .vInt 2), ("x", .vInt 3), ("z", .vInt 4)]).2 2 "x"
    (by decide)
  exact ⟨by decide, h.1, by simpa using h.2.1, by simpa using h.2.2.2.2⟩
